import Mathlib

/-!
# Verification of the discordql isolation-and-validation gateway

This file gives a shallow embedding, in Lean 4, of the parts of the
discordql repository that the specification talks about:

* the SQL scanner `tokenize` of
  `saas/frontend/src/app/dashboard/query/page.tsx` (embedded as `scanStep`
  / `tokenizeF` / `tokenize` below, over `List Char`);
* the row-level-security policies and secure wrapper views created by
  `saas/backend/migrations/002_enable_rls.sql` (embedded as
  `tenantIsolationCond`, `rowVisible`, `user_interactions_secure`,
  `daily_stats_secure`);
* the query validator, result materializer and tenant context scope of the
  backend, whose Python sources are not part of the checked tree; those are
  modelled from the specification text and marked as such in their doc
  comments.

Theorems about these definitions settle the frozen claims about the
specification.
-/

namespace DiscordQL

/-! ## Character classes used by the frontend scanner

The scanner works on JavaScript strings; the regexes it uses are `/\s/`,
`/\d/`, `/[\d.]/`, `/[a-zA-Z_]/` and `/[a-zA-Z0-9_]/`.  `isJsSpace` lists
the code points matched by JavaScript's `\s`. -/

def isJsSpace (c : Char) : Bool :=
  (9 ≤ c.toNat && c.toNat ≤ 13) || c.toNat == 32 || c.toNat == 160 ||
  c.toNat == 5760 || (8192 ≤ c.toNat && c.toNat ≤ 8202) || c.toNat == 8232 ||
  c.toNat == 8233 || c.toNat == 8239 || c.toNat == 8287 || c.toNat == 12288 ||
  c.toNat == 65279

def isSqlDigit (c : Char) : Bool :=
  '0' ≤ c && c ≤ '9'

/-- The class `[\d.]` scanned inside a number token. -/
def isNumChar (c : Char) : Bool :=
  isSqlDigit c || c == '.'

/-- The class `[a-zA-Z_]` that starts a word. -/
def isWordStart (c : Char) : Bool :=
  ('a' ≤ c && c ≤ 'z') || ('A' ≤ c && c ≤ 'Z') || c == '_'

/-- The class `[a-zA-Z0-9_]` continuing a word. -/
def isWordChar (c : Char) : Bool :=
  isWordStart c || isSqlDigit c

/-- The `SQL_KEYWORDS` set of `page.tsx`. -/
def SQL_KEYWORDS : List String :=
  ["SELECT", "FROM", "WHERE", "AND", "OR", "NOT", "IN", "IS", "NULL", "AS",
   "JOIN", "LEFT", "RIGHT", "INNER", "OUTER", "FULL", "CROSS", "ON",
   "GROUP", "BY", "ORDER", "ASC", "DESC", "HAVING", "LIMIT", "OFFSET",
   "DISTINCT", "ALL", "UNION", "INTERSECT", "EXCEPT", "CASE", "WHEN", "THEN",
   "ELSE", "END", "CAST", "COALESCE", "NULLIF", "WITH", "RECURSIVE", "LIKE",
   "ILIKE", "BETWEEN", "EXISTS", "ANY", "SOME", "TRUE", "FALSE", "OVER",
   "PARTITION", "ROWS", "RANGE", "UNBOUNDED", "PRECEDING", "FOLLOWING",
   "CURRENT", "ROW", "FILTER", "WITHIN", "INTERVAL"]

/-- The `SQL_FUNCTIONS` set of `page.tsx`. -/
def SQL_FUNCTIONS : List String :=
  ["COUNT", "SUM", "AVG", "MIN", "MAX", "ROUND", "FLOOR", "CEIL", "ABS",
   "LOWER", "UPPER", "TRIM", "LENGTH", "SUBSTRING", "CONCAT", "REPLACE",
   "NOW", "DATE", "EXTRACT", "DATE_TRUNC", "TO_CHAR", "TO_DATE", "AGE",
   "COALESCE", "NULLIF", "GREATEST", "LEAST", "ROW_NUMBER", "RANK",
   "DENSE_RANK", "LEAD", "LAG", "FIRST_VALUE", "LAST_VALUE", "NTH_VALUE",
   "STRING_AGG", "ARRAY_AGG", "JSON_AGG", "JSONB_AGG"]

/-- `word.toUpperCase()` for an ASCII word. -/
def upperStr (w : List Char) : String :=
  String.mk (w.map Char.toUpper)

/-- One token of the frontend scanner: `kind` is the `type` field of the
JavaScript object (`whitespace`, `string`, `number`, `keyword`, `function`,
`identifier`, `comment` or `operator`) and `value` its `value` field. -/
structure Tok where
  kind : String
  value : List Char
deriving DecidableEq, Repr

/-- The inner string-literal loop of `tokenize` (lines 44-47 of
`page.tsx`): starting just after the opening quote, it consumes characters
while the current character is not a quote; the branch for a doubled quote
`sql[i] === "'" && sql[i + 1] === "'"` is kept exactly as written in the
source, although it sits under a loop guard that already excludes
`sql[i] === "'"`.  Returns the consumed body and the remaining input (which
is either empty or starts with the terminating quote). -/
def strBody : List Char → List Char × List Char
  | [] => ([], [])
  | [c] =>
    if c = '\'' then ([], [c]) else ([c], [])
  | c :: c2 :: rest =>
    if c = '\'' then ([], c :: c2 :: rest)
    else if c = '\'' && c2 = '\'' then
      let p := strBody rest
      ('\'' :: '\'' :: p.1, p.2)
    else
      let p := strBody (c2 :: rest)
      (c :: p.1, p.2)

/-- `word` classification of `page.tsx` lines 61-64: uppercase the word and
test membership in `SQL_KEYWORDS`, then `SQL_FUNCTIONS`, else it is an
identifier. -/
def classifyWord (w : List Char) : Tok :=
  if SQL_KEYWORDS.contains (upperStr w) then ⟨"keyword", w⟩
  else if SQL_FUNCTIONS.contains (upperStr w) then ⟨"function", w⟩
  else ⟨"identifier", w⟩

/-- Whether the character after the current one is a digit
(`/\d/.test(sql[i + 1])`; `false` at end of input, as in JavaScript where
`sql[i + 1]` is `undefined`). -/
def headDigit : List Char → Bool
  | [] => false
  | d :: _ => isSqlDigit d

/-- One iteration of the main `while` loop of `tokenize` (`page.tsx` lines
34-76), on current character `c` and remaining input `rest`: the branch
tests appear in the source order (whitespace, string literal, number, word,
line comment, fallback operator).  Returns the pushed token and the input
left for the next iteration. -/
def scanStep (c : Char) (rest : List Char) : Tok × List Char :=
  if isJsSpace c then
    (⟨"whitespace", c :: rest.takeWhile isJsSpace⟩, rest.dropWhile isJsSpace)
  else if c = '\'' then
    match strBody rest with
    | (body, q :: r2) => (⟨"string", '\'' :: body ++ [q]⟩, r2)
    | (body, []) => (⟨"string", '\'' :: body⟩, [])
  else if isSqlDigit c || (c == '.' && headDigit rest) then
    (⟨"number", c :: rest.takeWhile isNumChar⟩, rest.dropWhile isNumChar)
  else if isWordStart c then
    (classifyWord (c :: rest.takeWhile isWordChar), rest.dropWhile isWordChar)
  else if c = '-' && rest.head? == some '-' then
    (⟨"comment", '-' :: '-' :: rest.tail.takeWhile (fun x => !(x == '\n'))⟩,
     rest.tail.dropWhile (fun x => !(x == '\n')))
  else
    (⟨"operator", [c]⟩, rest)

/-- The scanner loop, fuel-indexed so that it is structurally recursive;
each iteration consumes at least one character, so fuel `sql.length`
(supplied by `tokenize`) always suffices. -/
def tokenizeF : Nat → List Char → List Tok
  | 0, _ => []
  | _ + 1, [] => []
  | fuel + 1, c :: rest =>
    let p := scanStep c rest
    p.1 :: tokenizeF fuel p.2

/-- The `tokenize` function of `page.tsx`. -/
def tokenize (sql : List Char) : List Tok :=
  tokenizeF sql.length sql

/-- Concatenation of the `value` fields of a token list. -/
def concatValues (ts : List Tok) : List Char :=
  ts.foldr (fun t acc => t.value ++ acc) []

/-- The eight token kinds the scanner can produce. -/
def tokKinds : List String :=
  ["whitespace", "string", "number", "keyword", "function", "identifier",
   "comment", "operator"]

/-! ## Row-level security (migrations 001 and 002)

Migration 001 adds a TEXT column `tenant_id` to the nine Discord data
tables; migration 002 makes it NOT NULL, enables and forces row-level
security, and creates one policy `tenant_isolation_<table>` per table whose
USING and WITH CHECK clauses are both
`tenant_id = current_setting('app.current_tenant', TRUE)`.  The embedding
models nullable TEXT values as `Option String` and the three-valued SQL
comparison explicitly; a row passes a policy clause only when the clause
evaluates to SQL TRUE (NULL is not TRUE). -/

/-- SQL equality on nullable TEXT values: NULL on either side makes the
comparison NULL. -/
def sqlTextEq : Option String → Option String → Option Bool
  | some a, some b => some (a == b)
  | _, _ => none

/-- `current_setting('app.current_tenant', TRUE)`: returns the session
variable, or NULL (not an error) when it is unset, because of the
missing_ok argument `TRUE`. -/
def current_setting (appCurrentTenant : Option String) : Option String :=
  appCurrentTenant

/-- The policy condition `tenant_id = current_setting('app.current_tenant',
TRUE)` as evaluated by RLS: the row passes only if the condition is SQL
TRUE (a NULL condition rejects the row). -/
def tenantIsolationCond (tenant_id : Option String)
    (setting : Option String) : Bool :=
  (sqlTextEq tenant_id (current_setting setting)).getD false

/-- A row-level-security policy: the USING clause filters visible rows
(SELECT/UPDATE/DELETE) and the WITH CHECK clause validates new rows
(INSERT/UPDATE). -/
structure RlsPolicy where
  usingCond : Option String → Option String → Bool
  withCheckCond : Option String → Option String → Bool

/-- The `tenant_isolation_<table>` policy of migration 002: both clauses
are the same tenant condition. -/
def tenant_isolation : RlsPolicy :=
  ⟨tenantIsolationCond, tenantIsolationCond⟩

/-- The nine tables on which migration 002 enables and forces RLS and
creates a `tenant_isolation_*` policy. -/
def rlsTables : List String :=
  ["servers", "users", "server_members", "channels", "messages",
   "message_mentions", "emojis", "reactions", "sync_state"]

def policyOn (table : String) : Option RlsPolicy :=
  if rlsTables.contains table then some tenant_isolation else none

/-- Visibility of a row with the given `tenant_id` in a table, under a
session setting: rows of a policed table are filtered by the USING
clause. -/
def rowVisible (table : String) (tenant_id : Option String)
    (setting : Option String) : Bool :=
  match policyOn table with
  | some p => p.usingCond tenant_id setting
  | none => true

/-- Insertability of a row with the given `tenant_id` into a table, under a
session setting: rows of a policed table are validated by the WITH CHECK
clause. -/
def rowInsertable (table : String) (tenant_id : Option String)
    (setting : Option String) : Bool :=
  match policyOn table with
  | some p => p.withCheckCond tenant_id setting
  | none => true

/-- A row of the materialized view `user_interactions` of migration 002:
`tenant_id` comes from `messages.tenant_id`, which is NOT NULL, so it is a
plain `String`.  Timestamps are abstracted as integers. -/
structure UserInteractionRow where
  tenant_id : String
  from_user_id : Int
  to_user_id : Int
  server_id : Int
  interaction_type : String
  interaction_count : Int
  first_interaction : Int
  last_interaction : Int
deriving DecidableEq, Repr

/-- A row of the materialized view `daily_stats` of migration 002; the
`day` timestamp and the numeric average are abstracted as integers. -/
structure DailyStatsRow where
  tenant_id : String
  day : Int
  server_id : Int
  channel_id : Int
  author_id : Int
  message_count : Int
  unique_users_replied_to : Int
  reply_count : Int
  total_words : Int
  avg_words_per_message : Int
deriving DecidableEq, Repr

/-- The wrapper view `user_interactions_secure`:
`SELECT * FROM user_interactions WHERE tenant_id =
current_setting('app.current_tenant', TRUE)`. -/
def user_interactions_secure (matview : List UserInteractionRow)
    (setting : Option String) : List UserInteractionRow :=
  matview.filter fun r => tenantIsolationCond (some r.tenant_id) setting

/-- The wrapper view `daily_stats_secure`:
`SELECT * FROM daily_stats WHERE tenant_id =
current_setting('app.current_tenant', TRUE)`. -/
def daily_stats_secure (matview : List DailyStatsRow)
    (setting : Option String) : List DailyStatsRow :=
  matview.filter fun r => tenantIsolationCond (some r.tenant_id) setting

/-- A sample `user_interactions` row used by the witness below. -/
def sampleUIRow (tid : String) : UserInteractionRow :=
  ⟨tid, 1, 2, 3, "reply", 4, 0, 0⟩

/-! ## Query validator (modelled from the spec)

The backend validator lives in `saas/backend/api/query.py`, which is not
part of the checked source tree (the repository documentation only
describes it).  Sections 4.1 and 4.2 of the specification describe a
scanner producing ScanTokens and a validator applying five rules in order,
first denial wins.  The definitions below are modelled from that
specification text. -/

/-- Modelled from the spec: the ScanToken kinds of section 3 ({keyword,
identifier, string-literal, comment, statement-separator, other});
whitespace spans get their own kind so the shape rule can skip leading
whitespace. -/
inductive SKind where
  | keyword
  | ident
  | stringLit
  | comment
  | separator
  | ws
  | other
deriving DecidableEq, Repr

/-- Modelled from the spec: a ScanToken with its text. -/
structure SpecTok where
  kind : SKind
  value : List Char
deriving DecidableEq, Repr

def isSqlWs (c : Char) : Bool :=
  c == ' ' || c == '\t' || c == '\n' || c == '\r'

def lowerStr (w : List Char) : String :=
  String.mk (w.map Char.toLower)

/-- Modelled from the spec: bare words the spec scanner recognizes as
keyword tokens — the allowed leading clauses, the blocked keyword set the
repository documentation lists, and common SQL clause words. -/
def specKeywords : List String :=
  ["SELECT", "WITH", "FROM", "WHERE", "TABLE", "LIMIT",
   "DROP", "CREATE", "ALTER", "INSERT", "UPDATE", "DELETE", "GRANT", "SET",
   "PG_SLEEP", "CURRENT_SETTING", "SET_CONFIG"]

/-- Modelled from the spec: the body of a correctly escaped single-quoted
literal (section 4.1) — a doubled quote stays inside the literal; an
unterminated literal consumes the rest of the input. -/
def specStringBody : List Char → List Char × List Char
  | [] => ([], [])
  | [c] => if c = '\'' then ([], [c]) else ([c], [])
  | c :: c2 :: rest =>
    if c = '\'' then
      if c2 = '\'' then
        let p := specStringBody rest
        ('\'' :: '\'' :: p.1, p.2)
      else ([], c :: c2 :: rest)
    else
      let p := specStringBody (c2 :: rest)
      (c :: p.1, p.2)

/-- Modelled from the spec: a block-comment body, consumed up to and
including the closing marker, or to the end of the input. -/
def blockCommentBody : List Char → List Char × List Char
  | [] => ([], [])
  | [c] => ([c], [])
  | '*' :: '/' :: rest => (['*', '/'], rest)
  | c :: c2 :: rest =>
    let p := blockCommentBody (c2 :: rest)
    (c :: p.1, p.2)

/-- Modelled from the spec: one step of the section-4.1 scanner — string
literals with doubled-quote escaping, line and block comments, statement
separators, bare words and a catch-all other kind. -/
def specScanStep (c : Char) (rest : List Char) : SpecTok × List Char :=
  if isSqlWs c then
    (⟨.ws, c :: rest.takeWhile isSqlWs⟩, rest.dropWhile isSqlWs)
  else if c = '\'' then
    match specStringBody rest with
    | (body, q :: r2) => (⟨.stringLit, '\'' :: body ++ [q]⟩, r2)
    | (body, []) => (⟨.stringLit, '\'' :: body⟩, [])
  else if c = '-' && rest.head? == some '-' then
    (⟨.comment, '-' :: '-' :: rest.tail.takeWhile (fun x => !(x == '\n'))⟩,
     rest.tail.dropWhile (fun x => !(x == '\n')))
  else if c = '/' && rest.head? == some '*' then
    match blockCommentBody rest.tail with
    | (body, r2) => (⟨.comment, '/' :: '*' :: body⟩, r2)
  else if isWordStart c then
    (⟨if specKeywords.contains (upperStr (c :: rest.takeWhile isWordChar))
        then .keyword else .ident, c :: rest.takeWhile isWordChar⟩,
     rest.dropWhile isWordChar)
  else if c = ';' then
    (⟨.separator, [c]⟩, rest)
  else
    (⟨.other, [c]⟩, rest)

def specScanF : Nat → List Char → List SpecTok
  | 0, _ => []
  | _ + 1, [] => []
  | fuel + 1, c :: rest =>
    let p := specScanStep c rest
    p.1 :: specScanF fuel p.2

/-- Modelled from the spec: the scanner of section 4.1. -/
def specScan (sql : List Char) : List SpecTok :=
  specScanF sql.length sql

/-- The allowed leading clauses of the validator configuration. -/
def allowedLeading : List String := ["SELECT", "WITH"]

/-- Modelled from the spec and the repository documentation: the blocked
mutating/administrative keywords. -/
def blockedKeywords : List String :=
  ["DROP", "CREATE", "ALTER", "INSERT", "UPDATE", "DELETE", "GRANT", "SET",
   "PG_SLEEP", "CURRENT_SETTING", "SET_CONFIG"]

/-- The tenant-scoping session-parameter name; a reference to it inside an
identifier or literal token denies the query (rule 4). -/
def bypassName : List Char := "app.current_tenant".data

def listStartsWith : List Char → List Char → Bool
  | _, [] => true
  | [], _ :: _ => false
  | a :: as, b :: bs => a == b && listStartsWith as bs

def hasSub : List Char → List Char → Bool
  | [], pat => pat.isEmpty
  | l@(_ :: rest), pat => listStartsWith l pat || hasSub rest pat

def isInsignificant (t : SpecTok) : Bool :=
  t.kind == SKind.ws || t.kind == SKind.comment

/-- Modelled from the spec: rule 1 (shape) — ignoring leading whitespace
and comments, the first token must be a keyword naming an allowed leading
clause; anything else, including empty input, is denied. -/
def shapeRule (ts : List SpecTok) : Option String :=
  match ts.dropWhile isInsignificant with
  | t :: _ =>
    if t.kind == SKind.keyword && allowedLeading.contains (upperStr t.value)
      then none else some "shape"
  | [] => some "shape"

/-- Modelled from the spec: rule 2 (statement stacking) — any
statement-separator token denies the query; separators inside string
literals were consumed into string tokens by the scanner and do not
appear as separator tokens. -/
def stackingRule (ts : List SpecTok) : Option String :=
  if ts.any fun t => t.kind == SKind.separator then some "stacking"
  else none

/-- Modelled from the spec: rule 3 (keyword blocklist), case-insensitive
on whole keyword tokens. -/
def keywordRule (ts : List SpecTok) : Option String :=
  if ts.any fun t => t.kind == SKind.keyword &&
      blockedKeywords.contains (upperStr t.value) then some "keyword"
  else none

/-- Modelled from the spec: rule 4 (bypass strings) — an identifier or
literal token referencing the session-parameter name. -/
def bypassRule (ts : List SpecTok) : Option String :=
  if ts.any fun t =>
      (t.kind == SKind.ident || t.kind == SKind.stringLit) &&
        hasSub t.value bypassName then some "bypass"
  else none

/-- The raw materialized aggregates; only their `*_secure` wrappers may be
named. -/
def rawMatviews : List String := ["user_interactions", "daily_stats"]

/-- Modelled from the spec: rule 5 (direct materialized-resource access) —
an identifier naming a raw materialized view is denied; the `*_secure`
wrapper names are distinct identifiers and pass. -/
def matviewRule (ts : List SpecTok) : Option String :=
  if ts.any fun t => t.kind == SKind.ident &&
      rawMatviews.contains (lowerStr t.value) then some "matview"
  else none

/-- Modelled from the spec: a ValidationVerdict — allowed, or denied with
a reason. -/
inductive Verdict where
  | allowed
  | denied (reason : String)
deriving DecidableEq, Repr

/-- The five rules in their section-4.2 order; first denial wins. -/
def firstDenial (ts : List SpecTok) : Option String :=
  match shapeRule ts with
  | some r => some r
  | none =>
    match stackingRule ts with
    | some r => some r
    | none =>
      match keywordRule ts with
      | some r => some r
      | none =>
        match bypassRule ts with
        | some r => some r
        | none => matviewRule ts

/-- Modelled from the spec: the Validator of section 4.2. -/
def validate (sql : List Char) : Verdict :=
  match firstDenial (specScan sql) with
  | some r => Verdict.denied r
  | none => Verdict.allowed

/-- The concrete query `SELECT 'a;b'` whose only separator sits inside the
string literal. -/
def literalSemicolonQuery : List Char :=
  ['S', 'E', 'L', 'E', 'C', 'T', ' ', '\'', 'a', ';', 'b', '\'']

/-! ## Result materializer (modelled from the spec) -/

/-- Modelled from the spec: the part of QueryResult the row-cap claim is
about — the returned rows, the row count and the truncation flag. -/
structure MatResult (α : Type) where
  rows : List α
  row_count : Nat
  truncated : Bool
deriving Repr

/-- Modelled from the spec: the row-cap behaviour of the Result
Materializer (`saas/backend/api/query.py` is not under the checked tree).
It returns the first `limit` rows of the true result and reports whether
the true result was larger as the truncation flag, not as an error — the
function is total and has no error outcome. -/
def materializeRows {α : Type} (trueRows : List α) (limit : Nat) :
    MatResult α :=
  ⟨trueRows.take limit, (trueRows.take limit).length,
   decide (limit < trueRows.length)⟩

/-! ## Tenant context scope (modelled from the spec) -/

/-- Modelled from the spec: the observable events of one
`withTenant(identity, queryFn)` execution against the pooled
connection. -/
inductive DbEvent where
  | acquire
  | beginTxn
  | setTenant (t : String)
  | callerStmt (j : Nat)
  | commitTxn
  | rollbackTxn
  | release
deriving DecidableEq, Repr

/-- The three exit paths of section 4.3. -/
inductive Outcome where
  | success
  | failure
  | cancelled
deriving DecidableEq, Repr

/-- Modelled from the spec: how the transaction ends on each exit path —
commit on success, rollback on error or cancellation. -/
def endEvent : Outcome → DbEvent
  | .success => .commitTxn
  | .failure => .rollbackTxn
  | .cancelled => .rollbackTxn

/-- Modelled from the spec: the event trace of
`withTenant(identity, queryFn)` (section 4.3, `services/tenant.py` is not
under the checked tree), for an execution in which `queryFn` ran `m`
caller statements before finishing with outcome `out`: acquire a pooled
connection, begin a transaction, bind the tenant session parameter
(`SET LOCAL`), run the caller statements, end the transaction, and only
then release the connection.  No path contains a separate clear
statement. -/
def withTenantTrace (t : String) (m : Nat) (out : Outcome) : List DbEvent :=
  [.acquire, .beginTxn, .setTenant t] ++
    (List.range m).map DbEvent.callerStmt ++ [endEvent out, .release]

/-- The tenant binding carried by the connection after a sequence of
events: binding the parameter sets it and only ending the transaction
clears it; no other event touches it. -/
def bindStep (s : Option String) (e : DbEvent) : Option String :=
  match e with
  | .setTenant t => some t
  | .commitTxn => none
  | .rollbackTxn => none
  | _ => s

def bindingAfter (evs : List DbEvent) : Option String :=
  evs.foldl bindStep none

example : tokenize ['a', ';'] =
    [⟨"identifier", ['a']⟩, ⟨"operator", [';']⟩] := by decide

example : tokenize "SELECT 1".data =
    [⟨"keyword", ['S', 'E', 'L', 'E', 'C', 'T']⟩, ⟨"whitespace", [' ']⟩,
     ⟨"number", ['1']⟩] := by decide

/-! ## Scanner metatheory -/

theorem length_dropWhile_le (p : Char → Bool) (l : List Char) :
    (l.dropWhile p).length ≤ l.length := by
  induction l with
  | nil => simp
  | cons c rest ih =>
    by_cases h : p c
    · simpa [List.dropWhile, h] using Nat.le_succ_of_le ih
    · simp [List.dropWhile, h]

theorem strBody_append (l : List Char) :
    (strBody l).1 ++ (strBody l).2 = l := by
  induction l using strBody.induct with
  | case1 => rfl
  | case2 => rfl
  | case3 c h => simp [strBody, h]
  | case4 c2 rest => simp [strBody]
  | case5 c c2 rest h h2 ih =>
    simp only [decide_eq_true_eq, Bool.and_eq_true] at h2
    exact absurd h2.1 h
  | case6 c c2 rest h h2 ih =>
    simp only [strBody, if_neg h, if_neg h2]
    simpa using ih

theorem strBody_snd_length (l : List Char) :
    (strBody l).2.length ≤ l.length := by
  induction l using strBody.induct with
  | case1 => simp [strBody]
  | case2 => simp [strBody]
  | case3 c h => simp [strBody, h]
  | case4 c2 rest => simp [strBody]
  | case5 c c2 rest h h2 ih =>
    simp only [decide_eq_true_eq, Bool.and_eq_true] at h2
    exact absurd h2.1 h
  | case6 c c2 rest h h2 ih =>
    simp only [strBody, if_neg h, if_neg h2]
    calc (strBody (c2 :: rest)).2.length ≤ (c2 :: rest).length := ih
      _ ≤ (c :: c2 :: rest).length := by simp

theorem strBody_no_quote (l : List Char) (h : ∀ c ∈ l, ¬c = '\'') :
    strBody l = (l, []) := by
  induction l using strBody.induct with
  | case1 => rfl
  | case2 => exact absurd rfl (h '\'' (by simp))
  | case3 c hc => simp [strBody, hc]
  | case4 c2 rest => exact absurd rfl (h '\'' (by simp))
  | case5 c c2 rest hc h2 ih =>
    simp only [decide_eq_true_eq, Bool.and_eq_true] at h2
    exact absurd h2.1 hc
  | case6 c c2 rest hc h2 ih =>
    have := ih (fun x hx => h x (List.mem_cons_of_mem c hx))
    simp [strBody, hc, h2, this]

theorem classifyWord_value (w : List Char) : (classifyWord w).value = w := by
  unfold classifyWord
  split
  · rfl
  · split <;> rfl

/-- Every loop iteration pushes a token whose text, followed by the
remaining input, is exactly the input the iteration started from: the
scanner never skips and never duplicates characters. -/
theorem scanStep_append (c : Char) (rest : List Char) :
    (scanStep c rest).1.value ++ (scanStep c rest).2 = c :: rest := by
  unfold scanStep
  split
  next h => simp [List.takeWhile_append_dropWhile]
  next h =>
    split
    next hq =>
      subst hq
      split
      next body q r2 heq =>
        have hb := strBody_append rest
        rw [heq] at hb
        simpa [List.append_assoc] using hb
      next body heq =>
        have hb := strBody_append rest
        rw [heq] at hb
        simpa using hb
    next hq =>
      split
      next hnum => simp [List.takeWhile_append_dropWhile]
      next hnum =>
        split
        next hw => simp [classifyWord_value, List.takeWhile_append_dropWhile]
        next hw =>
          split
          next hcm =>
            have hc : c = '-' ∧ rest.head? = some '-' := by simpa using hcm
            obtain ⟨hc1, hc2⟩ := hc
            subst hc1
            cases rest with
            | nil => simp at hc2
            | cons r0 t =>
              simp only [List.head?_cons, Option.some.injEq] at hc2
              subst hc2
              simp [List.takeWhile_append_dropWhile]
          next hcm => simp

/-- Every loop iteration consumes at least the current character: the
remaining input never grows. -/
theorem scanStep_snd_length (c : Char) (rest : List Char) :
    (scanStep c rest).2.length ≤ rest.length := by
  unfold scanStep
  split
  next h => exact length_dropWhile_le _ _
  next h =>
    split
    next hq =>
      split
      next body q r2 heq =>
        have hs := strBody_snd_length rest
        rw [heq] at hs
        simp only [List.length_cons] at hs
        exact Nat.le_of_succ_le hs
      next body heq => simp
    next hq =>
      split
      next hnum => exact length_dropWhile_le _ _
      next hnum =>
        split
        next hw => exact length_dropWhile_le _ _
        next hw =>
          split
          next hcm =>
            calc (rest.tail.dropWhile fun x => !(x == '\n')).length
                ≤ rest.tail.length := length_dropWhile_le _ _
              _ ≤ rest.length := by
                  rw [List.length_tail]; omega
          next hcm => exact Nat.le_refl _

/-- The scanner does not depend on the exact fuel value, as long as the
fuel is at least the input length. -/
theorem tokenizeF_fuel_irrel :
    ∀ (f1 f2 : Nat) (l : List Char), l.length ≤ f1 → l.length ≤ f2 →
      tokenizeF f1 l = tokenizeF f2 l := by
  intro f1
  induction f1 with
  | zero =>
    intro f2 l h1 h2
    have : l = [] := List.eq_nil_of_length_eq_zero (Nat.le_zero.mp h1)
    subst this
    cases f2 <;> rfl
  | succ f ih =>
    intro f2 l h1 h2
    cases l with
    | nil => cases f2 <;> rfl
    | cons c rest =>
      cases f2 with
      | zero => simp at h2
      | succ f2p =>
        simp only [tokenizeF]
        have hlen := scanStep_snd_length c rest
        simp only [List.length_cons] at h1 h2
        have h1p : (scanStep c rest).2.length ≤ f :=
          Nat.le_trans hlen (Nat.lt_succ_iff.mp (Nat.lt_of_lt_of_le (Nat.lt_succ_self _) h1))
        have h2p : (scanStep c rest).2.length ≤ f2p :=
          Nat.le_trans hlen (Nat.lt_succ_iff.mp (Nat.lt_of_lt_of_le (Nat.lt_succ_self _) h2))
        rw [ih f2p _ h1p h2p]

/-- Unfolding equation for `tokenize` on a non-empty input: emit the token
of the current loop iteration, then scan the remaining input. -/
theorem tokenize_cons (c : Char) (rest : List Char) :
    tokenize (c :: rest) = (scanStep c rest).1 :: tokenize (scanStep c rest).2 := by
  show tokenizeF (c :: rest).length (c :: rest) = _
  simp only [List.length_cons, tokenizeF]
  rw [tokenizeF_fuel_irrel rest.length (scanStep c rest).2.length (scanStep c rest).2
    (scanStep_snd_length c rest) (Nat.le_refl _)]
  rfl

theorem tokenize_nil : tokenize [] = [] := rfl

theorem tokenizeF_concat :
    ∀ (f : Nat) (l : List Char), l.length ≤ f →
      concatValues (tokenizeF f l) = l := by
  intro f
  induction f with
  | zero =>
    intro l h
    have : l = [] := List.eq_nil_of_length_eq_zero (Nat.le_zero.mp h)
    subst this
    rfl
  | succ f ih =>
    intro l h
    cases l with
    | nil => rfl
    | cons c rest =>
      simp only [tokenizeF, concatValues, List.foldr_cons]
      have hlen := scanStep_snd_length c rest
      simp only [List.length_cons] at h
      have hf : (scanStep c rest).2.length ≤ f :=
        Nat.le_trans hlen (Nat.succ_le_succ_iff.mp h)
      have := ih (scanStep c rest).2 hf
      simp only [concatValues] at this
      rw [this, scanStep_append]

theorem tokenizeF_length_le :
    ∀ (f : Nat) (l : List Char), (tokenizeF f l).length ≤ l.length := by
  intro f
  induction f with
  | zero => intro l; simp [tokenizeF]
  | succ f ih =>
    intro l
    cases l with
    | nil => simp [tokenizeF]
    | cons c rest =>
      simp only [tokenizeF, List.length_cons]
      have := Nat.le_trans (ih (scanStep c rest).2) (scanStep_snd_length c rest)
      omega

theorem scanStep_kind_mem (c : Char) (rest : List Char) :
    tokKinds.contains (scanStep c rest).1.kind = true := by
  unfold scanStep
  split
  next => rfl
  next =>
    split
    next =>
      split
      next => rfl
      next => rfl
    next =>
      split
      next => rfl
      next =>
        split
        next =>
          unfold classifyWord
          split
          next => rfl
          next =>
            split
            next => rfl
            next => rfl
        next =>
          split
          next => rfl
          next => rfl

theorem tokenizeF_kinds :
    ∀ (f : Nat) (l : List Char) (t : Tok), t ∈ tokenizeF f l →
      tokKinds.contains t.kind = true := by
  intro f
  induction f with
  | zero => intro l t ht; simp [tokenizeF] at ht
  | succ f ih =>
    intro l t ht
    cases l with
    | nil => simp [tokenizeF] at ht
    | cons c rest =>
      simp only [tokenizeF, List.mem_cons] at ht
      rcases ht with h | h
      · subst h; exact scanStep_kind_mem c rest
      · exact ih _ t h

/-- Scanning from a top-level `;` always yields a one-character token of
type `operator` (the fallback branch of the loop). -/
theorem scanStep_semicolon (rest : List Char) :
    scanStep ';' rest = (⟨"operator", [';']⟩, rest) := rfl

/-- Scanning from `--` yields a comment token holding everything up to the
next newline (line 67-72 of `page.tsx`). -/
theorem scanStep_line_comment (t : List Char) :
    scanStep '-' ('-' :: t) =
      (⟨"comment", '-' :: '-' :: t.takeWhile fun x => !(x == '\n')⟩,
       t.dropWhile fun x => !(x == '\n')) := rfl

theorem takeWhile_append_stop (p : Char → Bool) :
    ∀ (l1 : List Char) (x : Char) (l2 : List Char),
      (∀ c ∈ l1, p c = true) → p x = false →
      (l1 ++ x :: l2).takeWhile p = l1 ∧ (l1 ++ x :: l2).dropWhile p = x :: l2 := by
  intro l1
  induction l1 with
  | nil =>
    intro x l2 h hx
    simp [List.takeWhile, List.dropWhile, hx]
  | cons a l ih =>
    intro x l2 h hx
    have ha : p a = true := h a (by simp)
    have hrec := ih x l2 (fun c hc => h c (by simp [hc])) hx
    constructor
    · simp [List.takeWhile, ha, hrec.1]
    · simp [List.dropWhile, ha, hrec.2]

/-! ## Claims about the scanner -/

/-- C3: the input `'a''b'` exercises the doubled-quote escape.  Because the
inner string loop of `tokenize` exits as soon as it sees a quote, its
escape branch is unreachable and the scanner splits the literal into two
string tokens `'a'` and `'b'` instead of producing the single token the
specification describes. -/
theorem tokenize_splits_escaped_literal :
    tokenize ['\'', 'a', '\'', '\'', 'b', '\''] =
      [⟨"string", ['\'', 'a', '\'']⟩, ⟨"string", ['\'', 'b', '\'']⟩] := by
  decide

/-- C4: the token sequence covers the whole input with no gaps, in order:
concatenating the token values gives back the input.  Moreover an
unterminated literal is not an error: a quote followed by text with no
closing quote is consumed to the end of the input as one string token. -/
theorem tokenize_covers_input :
    (∀ sql : List Char, concatValues (tokenize sql) = sql) ∧
    (∀ rest : List Char, (∀ c ∈ rest, ¬c = '\'') →
      tokenize ('\'' :: rest) = [⟨"string", '\'' :: rest⟩]) := by
  constructor
  · intro sql
    exact tokenizeF_concat sql.length sql (Nat.le_refl _)
  · intro rest h
    have hb := strBody_no_quote rest h
    have hws : ¬(isJsSpace '\'' = true) := by decide
    have hs : scanStep '\'' rest = (⟨"string", '\'' :: rest⟩, []) := by
      unfold scanStep
      rw [if_neg hws, if_pos rfl, hb]
    rw [tokenize_cons, hs, tokenize_nil]

theorem tokenize_covers_input_witness :
    tokenize ['\'', 'a', 'b'] = [⟨"string", ['\'', 'a', 'b']⟩] :=
  tokenize_covers_input.2 ['a', 'b'] (by decide)

/-- C5 counterexample: a block comment is not recognized by the scanner.
On `/*select*/` no token of type `comment` is produced; the interior word
is classified as a keyword token, so keyword detection does fire on text
that lies inside the block comment. -/
theorem block_comment_not_comment_token :
    tokenize ['/', '*', 's', 'e', 'l', 'e', 'c', 't', '*', '/'] =
      [⟨"operator", ['/']⟩, ⟨"operator", ['*']⟩,
       ⟨"keyword", ['s', 'e', 'l', 'e', 'c', 't']⟩,
       ⟨"operator", ['*']⟩, ⟨"operator", ['/']⟩] ∧
    ((tokenize ['/', '*', 's', 'e', 'l', 'e', 'c', 't', '*', '/']).all
      fun t => !(t.kind == "comment")) = true := by
  decide

/-- C5 amended: a line comment `--` is emitted as one single token of type
`comment` spanning everything up to (excluding) the next newline, even when
the comment text contains keywords or statement separators; block comments
are not recognized. -/
theorem line_comment_single_token (body rest : List Char)
    (h : ∀ c ∈ body, ¬c = '\n') :
    tokenize ('-' :: '-' :: (body ++ '\n' :: rest)) =
      ⟨"comment", '-' :: '-' :: body⟩ :: tokenize ('\n' :: rest) := by
  have hp : ∀ c ∈ body, (!(c == '\n')) = true := by
    intro c hc
    simpa using h c hc
  have hx : (!('\n' == '\n')) = false := by decide
  have htw := takeWhile_append_stop (fun x => !(x == '\n')) body '\n' rest hp hx
  rw [tokenize_cons, scanStep_line_comment, htw.1, htw.2]

theorem line_comment_single_token_witness :
    tokenize ('-' :: '-' :: (['d', 'r', 'o', 'p', ';'] ++ '\n' :: ['x'])) =
      ⟨"comment", '-' :: '-' :: ['d', 'r', 'o', 'p', ';']⟩ ::
        tokenize ('\n' :: ['x']) :=
  line_comment_single_token ['d', 'r', 'o', 'p', ';'] ['x'] (by decide)

/-- C6 counterexample: a `;` outside any string literal is emitted with
token type `operator`; the scanner has no `statement-separator` token type
at all. -/
theorem semicolon_not_separator_token :
    tokenize ['a', ';'] = [⟨"identifier", ['a']⟩, ⟨"operator", [';']⟩] ∧
    ((tokenize ['a', ';']).all
      fun t => !(t.kind == "statement-separator")) = true := by
  decide

/-- C6 amended: every token kind the scanner produces lies in the set
{whitespace, string, number, keyword, function, identifier, comment,
operator}, and a `;` reached outside a string literal and outside a comment
is emitted as a one-character token of kind `operator` (the generic
fallback), not as a dedicated statement-separator kind. -/
theorem token_kinds_closed :
    (∀ sql : List Char,
      ((tokenize sql).all fun t => tokKinds.contains t.kind) = true) ∧
    (∀ rest : List Char, scanStep ';' rest = (⟨"operator", [';']⟩, rest)) := by
  constructor
  · intro sql
    refine List.all_eq_true.mpr ?_
    intro t ht
    exact tokenizeF_kinds sql.length sql t ht
  · intro rest
    rfl

/-- C10: the scanner is a total function (its Lean embedding is defined by
structural recursion) and each loop iteration consumes at least one input
character: every token value is non-empty, the leftover input of one
iteration is strictly shorter than its input, and consequently an input of
length n produces at most n tokens. -/
theorem tokenize_terminates_consuming_input :
    (∀ sql : List Char, (tokenize sql).length ≤ sql.length) ∧
    (∀ (c : Char) (rest : List Char),
      1 ≤ (scanStep c rest).1.value.length ∧
        (scanStep c rest).2.length < (c :: rest).length) := by
  constructor
  · intro sql
    exact tokenizeF_length_le sql.length sql
  · intro c rest
    have hle := scanStep_snd_length c rest
    constructor
    · by_cases hv : (scanStep c rest).1.value = []
      · exfalso
        have ha := scanStep_append c rest
        rw [hv, List.nil_append] at ha
        rw [ha] at hle
        simp [List.length_cons] at hle
      · have : 0 < (scanStep c rest).1.value.length :=
          List.length_pos.mpr hv
        omega
    · simp only [List.length_cons]
      omega

theorem tenantIsolationCond_some_some (a b : String) :
    tenantIsolationCond (some a) (some b) = (a == b) := rfl

/-- C1: each of the nine data tables carries the `tenant_isolation` policy
whose USING and WITH CHECK clauses are both the condition
`tenant_id = current_setting('app.current_tenant', TRUE)`; under a set
tenant `t` a row is visible or insertable exactly when its `tenant_id`
equals `t`; when the setting is unset the comparison is NULL and no row is
visible or insertable; and when the setting is the empty string no row
whose `tenant_id` is a (non-empty) tenant identity is visible or
insertable. -/
theorem rls_policies_enforce_tenant_isolation :
    (∀ tbl : String, rlsTables.contains tbl = true →
      policyOn tbl = some tenant_isolation ∧
      tenant_isolation.usingCond = tenantIsolationCond ∧
      tenant_isolation.withCheckCond = tenantIsolationCond) ∧
    (∀ tbl tid t : String, rlsTables.contains tbl = true →
      (rowVisible tbl (some tid) (some t) = true ↔ tid = t) ∧
      (rowInsertable tbl (some tid) (some t) = true ↔ tid = t)) ∧
    (∀ (tbl : String) (tid : Option String), rlsTables.contains tbl = true →
      rowVisible tbl tid none = false ∧ rowInsertable tbl tid none = false) ∧
    (∀ tbl tid : String, rlsTables.contains tbl = true → ¬tid = "" →
      rowVisible tbl (some tid) (some "") = false ∧
      rowInsertable tbl (some tid) (some "") = false) := by
  refine ⟨?_, ?_, ?_, ?_⟩
  · intro tbl h
    have hm : tbl ∈ rlsTables := by simpa using h
    exact ⟨by simp [policyOn, hm], rfl, rfl⟩
  · intro tbl tid t h
    have hm : tbl ∈ rlsTables := by simpa using h
    constructor <;>
      simp [rowVisible, rowInsertable, policyOn, hm, tenant_isolation,
        tenantIsolationCond, sqlTextEq, current_setting]
  · intro tbl tid h
    have hm : tbl ∈ rlsTables := by simpa using h
    constructor <;>
      cases tid <;>
        simp [rowVisible, rowInsertable, policyOn, hm, tenant_isolation,
          tenantIsolationCond, sqlTextEq, current_setting]
  · intro tbl tid h htid
    have hm : tbl ∈ rlsTables := by simpa using h
    constructor <;>
      simp [rowVisible, rowInsertable, policyOn, hm, tenant_isolation,
        tenantIsolationCond, sqlTextEq, current_setting, htid]

theorem rls_policies_enforce_tenant_isolation_witness :
    (rowVisible "messages" (some "user_a") (some "user_a") = true ↔
      "user_a" = "user_a") ∧
    rowVisible "messages" (some "user_a") none = false ∧
    rowVisible "messages" (some "user_a") (some "") = false :=
  ⟨(rls_policies_enforce_tenant_isolation.2.1 "messages" "user_a" "user_a"
      (by decide)).1,
   (rls_policies_enforce_tenant_isolation.2.2.1 "messages" (some "user_a")
      (by decide)).1,
   (rls_policies_enforce_tenant_isolation.2.2.2 "messages" "user_a"
      (by decide) (by decide)).1⟩

/-- C2: under any set tenant `t`, the wrapper views return exactly the
materialized-view rows whose `tenant_id` is `t`; in particular a query run
under tenant `a` never receives through the wrapper views a row owned by a
different tenant `b`. -/
theorem secure_views_filter_by_tenant :
    (∀ (rows : List UserInteractionRow) (t : String) (r : UserInteractionRow),
      r ∈ user_interactions_secure rows (some t) ↔
        r ∈ rows ∧ r.tenant_id = t) ∧
    (∀ (rows : List DailyStatsRow) (t : String) (r : DailyStatsRow),
      r ∈ daily_stats_secure rows (some t) ↔ r ∈ rows ∧ r.tenant_id = t) ∧
    (∀ (rows : List UserInteractionRow) (a b : String)
        (r : UserInteractionRow), ¬a = b → r.tenant_id = b →
      ¬r ∈ user_interactions_secure rows (some a)) ∧
    (∀ (rows : List DailyStatsRow) (a b : String) (r : DailyStatsRow),
      ¬a = b → r.tenant_id = b → ¬r ∈ daily_stats_secure rows (some a)) := by
  have hui : ∀ (rows : List UserInteractionRow) (t : String)
      (r : UserInteractionRow),
      r ∈ user_interactions_secure rows (some t) ↔
        r ∈ rows ∧ r.tenant_id = t := by
    intro rows t r
    simp [user_interactions_secure, List.mem_filter,
      tenantIsolationCond_some_some]
  have hds : ∀ (rows : List DailyStatsRow) (t : String) (r : DailyStatsRow),
      r ∈ daily_stats_secure rows (some t) ↔ r ∈ rows ∧ r.tenant_id = t := by
    intro rows t r
    simp [daily_stats_secure, List.mem_filter, tenantIsolationCond_some_some]
  refine ⟨hui, hds, ?_, ?_⟩
  · intro rows a b r hab hb hmem
    have ha : r.tenant_id = a := ((hui rows a r).mp hmem).2
    exact hab (ha.symm.trans hb)
  · intro rows a b r hab hb hmem
    have ha : r.tenant_id = a := ((hds rows a r).mp hmem).2
    exact hab (ha.symm.trans hb)

theorem secure_views_filter_by_tenant_witness :
    ¬sampleUIRow "tenant_b" ∈
      user_interactions_secure [sampleUIRow "tenant_a", sampleUIRow "tenant_b"]
        (some "tenant_a") :=
  secure_views_filter_by_tenant.2.2.1
    [sampleUIRow "tenant_a", sampleUIRow "tenant_b"] "tenant_a" "tenant_b"
    (sampleUIRow "tenant_b") (by decide) rfl

/-- C7: a statement separator surviving outside string literals (hence
emitted as a separator token by the scanner) makes the validator deny the
query; when no separator token survives, the stacking rule does not deny;
`SELECT 1; DROP TABLE x` is denied by the stacking rule, while the
separator inside the literal of `literalSemicolonQuery` does not prevent
the query from being allowed. -/
theorem validator_denies_statement_stacking :
    (∀ sql : List Char,
      ((specScan sql).any fun t => t.kind == SKind.separator) = true →
        ¬validate sql = Verdict.allowed) ∧
    (∀ sql : List Char,
      ((specScan sql).any fun t => t.kind == SKind.separator) = false →
        stackingRule (specScan sql) = none) ∧
    validate "SELECT 1; DROP TABLE x".data = Verdict.denied "stacking" ∧
    validate literalSemicolonQuery = Verdict.allowed := by
  refine ⟨?_, ?_, ?_, ?_⟩
  · intro sql h
    unfold validate
    cases hs : shapeRule (specScan sql) with
    | some r => simp [firstDenial, hs]
    | none => simp [firstDenial, hs, stackingRule, h]
  · intro sql h
    simp [stackingRule, h]
  · decide
  · decide

theorem validator_denies_statement_stacking_witness :
    ¬validate "SELECT 1; DROP TABLE x".data = Verdict.allowed :=
  validator_denies_statement_stacking.1 "SELECT 1; DROP TABLE x".data
    (by decide)

/-- C8: if the true result has exactly `limit` rows, all rows come back
and `truncated = false`; if it has more than `limit` rows, exactly the
first `limit` rows come back, `row_count = limit`, and the overflow is
reported as `truncated = true` rather than as an error. -/
theorem materializer_row_cap_boundary {α : Type} (trueRows : List α)
    (limit : Nat) :
    (trueRows.length = limit →
      materializeRows trueRows limit = ⟨trueRows, limit, false⟩) ∧
    (limit < trueRows.length →
      (materializeRows trueRows limit).rows = trueRows.take limit ∧
      (materializeRows trueRows limit).row_count = limit ∧
      (materializeRows trueRows limit).truncated = true) := by
  constructor
  · intro h
    unfold materializeRows
    have htake : trueRows.take limit = trueRows :=
      List.take_of_length_le (Nat.le_of_eq h)
    rw [htake]
    simp [h]
  · intro h
    unfold materializeRows
    refine ⟨rfl, ?_, by simp [h]⟩
    simp [List.length_take, Nat.min_eq_left (Nat.le_of_lt h)]

theorem materializer_row_cap_boundary_witness :
    materializeRows [10, 20, 30] 3 = ⟨[10, 20, 30], 3, false⟩ ∧
    ((materializeRows [10, 20, 30] 2).rows = [10, 20, 30].take 2 ∧
     (materializeRows [10, 20, 30] 2).row_count = 2 ∧
     (materializeRows [10, 20, 30] 2).truncated = true) :=
  ⟨(materializer_row_cap_boundary [10, 20, 30] 3).1 rfl,
   (materializer_row_cap_boundary [10, 20, 30] 2).2 (by decide)⟩

theorem foldl_bindStep_callerStmts :
    ∀ (js : List Nat) (s : Option String),
      (js.map DbEvent.callerStmt).foldl bindStep s = s := by
  intro js
  induction js with
  | nil => intro s; rfl
  | cons j rest ih =>
    intro s
    simpa [bindStep] using ih s

/-- C9: for every tenant, caller-statement count and outcome of
`withTenant`: (i) each caller statement runs while the binding is the
tenant (the parameter is bound before any caller statement executes);
(ii) the binding can only be cleared by a transaction-ending event, never
by a separate clear; and (iii) the trace ends with the transaction end
immediately followed by the release, and the binding is already cleared
when the release happens — no exit path returns the connection to the pool
still bound to a tenant. -/
theorem with_tenant_scope_invariant :
    (∀ (t : String) (m : Nat) (out : Outcome) (j : Nat), j < m →
      (withTenantTrace t m out).get? (3 + j) =
          some (DbEvent.callerStmt j) ∧
        bindingAfter ((withTenantTrace t m out).take (3 + j)) = some t) ∧
    (∀ (s : Option String) (e : DbEvent), bindStep s e = none →
      s = none ∨ e = DbEvent.commitTxn ∨ e = DbEvent.rollbackTxn) ∧
    (∀ (t : String) (m : Nat) (out : Outcome),
      (withTenantTrace t m out).drop (3 + m) = [endEvent out, .release] ∧
      bindingAfter ((withTenantTrace t m out).take (4 + m)) = none ∧
      bindingAfter (withTenantTrace t m out) = none) := by
  refine ⟨?_, ?_, ?_⟩
  · intro t m out j hj
    constructor
    · unfold withTenantTrace
      rw [List.append_assoc, List.get?_append_right (by simp)]
      have h3 : 3 + j - ([DbEvent.acquire, DbEvent.beginTxn,
          DbEvent.setTenant t] : List DbEvent).length = j := by
        simp
      rw [h3, List.get?_append (by simpa using hj), List.get?_map,
        List.get?_range hj]
      rfl
    · unfold withTenantTrace
      rw [List.append_assoc, List.take_append_eq_append_take,
        List.take_of_length_le (by simp)]
      have h3 : 3 + j - ([DbEvent.acquire, DbEvent.beginTxn,
          DbEvent.setTenant t] : List DbEvent).length = j := by
        simp
      rw [h3, List.take_append_of_le_length (by simpa using Nat.le_of_lt hj),
        ← List.map_take, List.take_range, Nat.min_eq_left (Nat.le_of_lt hj)]
      unfold bindingAfter
      rw [List.foldl_append]
      exact foldl_bindStep_callerStmts (List.range j) _
  · intro s e h
    cases e with
    | setTenant t => exact absurd h (by simp [bindStep])
    | commitTxn => exact Or.inr (Or.inl rfl)
    | rollbackTxn => exact Or.inr (Or.inr rfl)
    | acquire => exact Or.inl (by simpa [bindStep] using h)
    | beginTxn => exact Or.inl (by simpa [bindStep] using h)
    | callerStmt j => exact Or.inl (by simpa [bindStep] using h)
    | release => exact Or.inl (by simpa [bindStep] using h)
  · intro t m out
    have hlen3m : (([DbEvent.acquire, DbEvent.beginTxn, DbEvent.setTenant t] :
        List DbEvent) ++ (List.range m).map DbEvent.callerStmt).length =
        3 + m := by
      simp
      omega
    refine ⟨?_, ?_, ?_⟩
    · unfold withTenantTrace
      rw [List.drop_left' hlen3m]
    · unfold withTenantTrace
      have hsplit :
          (([DbEvent.acquire, DbEvent.beginTxn, DbEvent.setTenant t] :
              List DbEvent) ++ (List.range m).map DbEvent.callerStmt) ++
            [endEvent out, DbEvent.release] =
          ((([DbEvent.acquire, DbEvent.beginTxn, DbEvent.setTenant t] :
              List DbEvent) ++ (List.range m).map DbEvent.callerStmt) ++
            [endEvent out]) ++ [DbEvent.release] := by
        rw [List.append_assoc _ [endEvent out] [DbEvent.release]]
        rfl
      rw [hsplit, List.take_left' (by simp; omega)]
      unfold bindingAfter
      rw [List.foldl_append, List.foldl_append,
        foldl_bindStep_callerStmts (List.range m) _]
      cases out <;> rfl
    · unfold withTenantTrace bindingAfter
      rw [List.foldl_append, List.foldl_append,
        foldl_bindStep_callerStmts (List.range m) _]
      cases out <;> rfl

theorem with_tenant_scope_invariant_witness :
    ((withTenantTrace "tenant_a" 1 Outcome.failure).get? 3 =
        some (DbEvent.callerStmt 0) ∧
      bindingAfter ((withTenantTrace "tenant_a" 1 Outcome.failure).take 3) =
        some "tenant_a") ∧
    bindingAfter (withTenantTrace "tenant_a" 1 Outcome.failure) = none :=
  ⟨with_tenant_scope_invariant.1 "tenant_a" 1 Outcome.failure 0 (by decide),
   (with_tenant_scope_invariant.2.2 "tenant_a" 1 Outcome.failure).2.2⟩

end DiscordQL
